import Mathlib

/-! # Monkey interpreter: object model, hash keys and builtin table

A shallow embedding of `object/object.go`, `evaluator/builtin.go` and the
keyword table of `token/token.go`.

Conventions of the embedding:

* a Go `int64` is an `Int` constrained by `int64`, a Go `uint64` is a `Nat`
  below `2 ^ 64`; conversions and wrapping arithmetic carry an explicit
  `% 2 ^ 64`;
* a Go `string` is a `String`; its bytes are the UTF-8 encoding, so the model
  covers the Go strings that are valid UTF-8;
* an `Object` is a non-nil interface value, taken by value: the embedding has
  no pointer identity;
* a builtin returns an `Outcome`: either the returned object or a run-time
  panic of the Go program;
* the builtins that build a slice (`rest`, `push`) run in a `Memory` of backing
  arrays, so that what they write, and where, is part of the model;
* an `*Environment` is an address into a `Heap` of environments; the method
  `Get`, which calls itself on the outer environment, takes fuel, and the
  theorems show that any fuel above the address is enough;
* the builtin `puts` takes the standard output written so far and returns it
  with what the call writes.
-/

set_option autoImplicit false

/-! ## Package `fmt` (the verbs `%d`, `%s` and `%t`) -/

namespace fmt

/-- An operand of `Sprintf`. -/
inductive Arg where
  | int (n : Int)
  | str (s : String)
  | bool (b : Bool)

/-- Expansion of a format: `%d` with an integer operand is its decimal
rendering, `%s` with a string operand is the string, `%t` with a boolean operand
is `true` or `false`, every other character is copied. -/
def format : List Char → List Arg → List Char
  | '%' :: 'd' :: rest, Arg.int n :: as => (toString n).data ++ format rest as
  | '%' :: 's' :: rest, Arg.str s :: as => s.data ++ format rest as
  | '%' :: 't' :: rest, Arg.bool b :: as => (toString b).data ++ format rest as
  | c :: cs, as => c :: format cs as
  | [], _ => []

/-- Go `fmt.Sprintf`, restricted to `%d`, `%s` and `%t`. -/
def Sprintf (f : String) (a : List Arg) : String :=
  String.mk (format f.data a)

end fmt

/-! ## Package `hash/fnv` (64-bit FNV-1a) -/

namespace fnv

def offset64 : Nat := 14695981039346656037

def prime64 : Nat := 1099511628211

/-- State of a fresh `fnv.New64a()` hasher. -/
def New64a : Nat := offset64

/-- The method `(*sum64a).Write`: `hash ^= uint64(c); hash *= prime64` for each
byte `c` of the data, in `uint64` arithmetic. -/
def Write (s : Nat) : List Nat → Nat
  | [] => s
  | c :: data => Write (((s ^^^ c) * prime64) % 2 ^ 64) data

/-- The method `(*sum64a).Sum64`. -/
def Sum64 (s : Nat) : Nat := s

end fnv

/-! ## Package `object` -/

namespace object

abbrev ObjectType := String

def INTEGER_OBJ : ObjectType := "INTEGER"
def BOOLEAN_OBJ : ObjectType := "BOOLEAN"
def NULL_OBJ : ObjectType := "NULL"
def RETURN_VALUE_OBJ : ObjectType := "RETURN_VALUE"
def ERROR_OBJ : ObjectType := "ERROR"
def FUNCTION_OBJ : ObjectType := "FUNCTION"
def STRING_OBJ : ObjectType := "STRING"
def BUILTIN_OBJ : ObjectType := "BULITIN"
def ARRAY_OBJ : ObjectType := "ARRAY"
def HASH_OBJ : ObjectType := "HASH"

/-- The struct `HashKey`: a type tag and a `uint64`. -/
structure HashKey where
  Type' : ObjectType
  Value : Nat
  deriving DecidableEq

/-- The function values stored in the table `builtins`, by their key. -/
inductive BuiltinFunction where
  | len | first | rest | last | push | puts
  deriving DecidableEq

/-- The implementations of the interface `Object`.  A `Function` keeps its
parameter names, the rendering of its body and the address of the captured
environment; a `Hash` keeps its pairs as `(HashKey, Key, Value)` entries. -/
inductive Object where
  | ReturnValue (Value : Object)
  | Error (Message : String)
  | Integer (Value : Int)
  | Boolean (Value : Bool)
  | Null (Value : Int)
  | Function (Parameters : List String) (Body : String) (Env : Nat)
  | String (Value : String)
  | Builtin (Fn : BuiltinFunction)
  | Array (Elements : List Object)
  | Hash (Pairs : List (HashKey × Object × Object))

/-- The range of a Go `int64`. -/
def int64 (n : Int) : Prop := -(2 : Int) ^ 63 ≤ n ∧ n < (2 : Int) ^ 63

instance (n : Int) : Decidable (int64 n) := by
  unfold int64; infer_instance

/-- The conversion `uint64(v)` of an `int64`: the two's complement bit pattern
read as an unsigned number. -/
def uint64 (v : Int) : Nat := (v % (2 : Int) ^ 64).toNat

/-- The conversion `[]byte(s)`: the bytes of a string. -/
def bytes (s : String) : List Nat :=
  s.toUTF8.data.toList.map UInt8.toNat

/-- The method `Type()` of each implementation. -/
def Object.Type' : Object → ObjectType
  | .ReturnValue _ => RETURN_VALUE_OBJ
  | .Error _ => ERROR_OBJ
  | .Integer _ => INTEGER_OBJ
  | .Boolean _ => BOOLEAN_OBJ
  | .Null _ => NULL_OBJ
  | .Function _ _ _ => FUNCTION_OBJ
  | .String _ => STRING_OBJ
  | .Builtin _ => BUILTIN_OBJ
  | .Array _ => ARRAY_OBJ
  | .Hash _ => HASH_OBJ

/-- The method `(*Integer).HashKey`. -/
def Integer.HashKey (Value : Int) : HashKey :=
  { Type' := (Object.Integer Value).Type', Value := uint64 Value }

/-- The method `(*Boolean).HashKey`. -/
def Boolean.HashKey (Value : Bool) : HashKey :=
  let h : Nat := 0
  let h := if Value then 1 else h
  { Type' := (Object.Boolean Value).Type', Value := h }

/-- The method `(*String).HashKey`. -/
def String.HashKey (Value : String) : HashKey :=
  let h := fnv.New64a
  let h := fnv.Write h (bytes Value)
  { Type' := (Object.String Value).Type', Value := fnv.Sum64 h }

/-- The interface `Hashable`: the method `HashKey` of the implementations that
have one, `none` for the others. -/
def Object.HashKey : Object → Option HashKey
  | .Integer v => some (Integer.HashKey v)
  | .Boolean v => some (Boolean.HashKey v)
  | .String v => some (String.HashKey v)
  | _ => none

/-- A hashable value: an `Integer` holding an `int64`, a `Boolean` or a
`String`. -/
def Object.Hashable : Object → Prop
  | .Integer v => int64 v
  | .Boolean _ => True
  | .String _ => True
  | _ => False

end object


/-! ## Slices: the Go built-ins `make`, `copy`, `append` and slicing -/

namespace slices

open object

/-- A slice header: the backing array (by address), the offset of the first
element in it, the length and the capacity. -/
structure Slice where
  ptr : Nat
  off : Nat
  len : Nat
  cap : Nat
  deriving DecidableEq

/-- The backing arrays of the `[]object.Object` slices, by address; `none` is
the nil interface value. -/
abbrev Memory := List (List (Option Object))

/-- The backing array at an address. -/
def Memory.array (m : Memory) (p : Nat) : List (Option Object) := m.getD p []

/-- The elements `s[0], ..., s[len(s)-1]` of a slice. -/
def Memory.load (m : Memory) (s : Slice) : List (Option Object) :=
  ((m.array s.ptr).drop s.off).take s.len

/-- Assignment of `xs` to `s[i], s[i+1], ...` in the backing array of `s`. -/
def Memory.store (m : Memory) (s : Slice) (i : Nat) (xs : List (Option Object)) : Memory :=
  let a := m.array s.ptr
  m.set s.ptr (a.take (s.off + i) ++ xs ++ a.drop (s.off + i + xs.length))

/-- The built-in `make([]object.Object, len, cap)` for `len ≤ cap`: a new
backing array of `cap` nil values. -/
def make (m : Memory) (len cap : Nat) : Memory × Slice :=
  (m ++ [List.replicate cap none], { ptr := m.length, off := 0, len := len, cap := cap })

/-- The slice expression `s[i:j]`; `none` when the bounds are out of range. -/
def Slice.slice (s : Slice) (i j : Nat) : Option Slice :=
  if i ≤ j ∧ j ≤ s.cap then
    some { ptr := s.ptr, off := s.off + i, len := j - i, cap := s.cap - i }
  else
    none

/-- The built-in `copy(dst, src)`: the first `min(len(dst), len(src))` elements
of `src` are written to `dst`; the number of elements copied is returned. -/
def copy (m : Memory) (dst src : Slice) : Memory × Nat :=
  let n := min dst.len src.len
  (m.store dst 0 ((m.load src).take n), n)

/-- The built-in `append(s, xs...)`: in place when the capacity of `s` suffices,
into a new backing array otherwise (whose capacity the model takes to be the new
length). -/
def append (m : Memory) (s : Slice) (xs : List (Option Object)) : Memory × Slice :=
  if s.len + xs.length ≤ s.cap then
    (m.store s s.len xs, { s with len := s.len + xs.length })
  else
    (m ++ [m.load s ++ xs],
      { ptr := m.length, off := 0, len := s.len + xs.length, cap := s.len + xs.length })

/-- The objects of a list of interface values none of which is nil. -/
def nonNil : List (Option Object) → Option (List Object)
  | [] => some []
  | none :: _ => none
  | some o :: os => (nonNil os).map (o :: ·)

end slices

/-! ## Package `evaluator`: the table `builtins` -/

namespace evaluator

open object slices

/-- Modelled from the spec: the singleton `NULL` of `evaluator.go`, which is
not among the sources; the spec makes it the one process-wide Null value. -/
def NULL : Object := .Null 0

/-- Modelled from the spec: the helper `newError` of `evaluator.go`, which is
not among the sources; the spec makes its result an Error whose message is the
template filled in with the operands. -/
def newError (format : String) (a : List fmt.Arg) : Object :=
  .Error (fmt.Sprintf format a)

/-- How a call of a builtin ends: it returns an object, or the Go run time
panics, or it returns an array holding a nil interface value (which `Object`
does not represent). -/
inductive Outcome where
  | returns (o : Object)
  | panics (msg : String)
  | nilElement

/-- A finished call of a builtin that builds a slice: the outcome and the
memory the call leaves. -/
structure Call where
  out : Outcome
  mem : Memory

/-- The run-time panic of an index expression `a[i]` with `i ≥ len(a)`. -/
def indexOutOfRange (i len : Nat) : String :=
  fmt.Sprintf "runtime error: index out of range [%d] with length %d" [.int i, .int len]

/-- The run-time panic of a slice expression `a[i:j]` out of bounds. -/
def sliceOutOfRange : String := "runtime error: slice bounds out of range"

/-- The memory at the entry of a builtin: when the first argument is an Array,
the backing array of its `Elements` is at address 0. -/
def entry (args : List Object) : Memory :=
  match (args[0]? : Option Object) with
  | some (.Array Elements) => [Elements.map some]
  | _ => []

/-- The slice `arg.Elements` of the first argument in the memory `entry`. -/
def elements (Elements : List Object) : Slice :=
  { ptr := 0, off := 0, len := Elements.length, cap := Elements.length }

/-- The composite literal `&object.Array{Elements: s}`. -/
def newArray (m : Memory) (s : Slice) : Outcome :=
  match nonNil (m.load s) with
  | some es => .returns (.Array es)
  | none => .nilElement

namespace builtins

/-- The builtin `len`. -/
def len (args : List Object) : Outcome :=
  if args.length > 1 then
    .returns (newError "wrong number of arguments, got=%d, want=1" [.int args.length])
  else
    match (args[0]? : Option Object) with
    | none => .panics (indexOutOfRange 0 args.length)
    | some (.String Value) => .returns (.Integer Value.utf8ByteSize)
    | some (.Array Elements) => .returns (.Integer Elements.length)
    | some arg => .returns (newError "argument to `len` not supported, got %s" [.str arg.Type'])

/-- The builtin `first`. -/
def first (args : List Object) : Outcome :=
  if args.length > 1 then
    .returns (newError "wrong number of arguments, got=%d, want=1" [.int args.length])
  else
    match (args[0]? : Option Object) with
    | none => .panics (indexOutOfRange 0 args.length)
    | some (.Array Elements) =>
      if Elements.length > 0 then
        match (Elements[0]? : Option Object) with
        | some e => .returns e
        | none => .panics (indexOutOfRange 0 Elements.length)
      else
        .returns NULL
    | some arg => .returns (newError "argument to `first` not supported, got %s" [.str arg.Type'])

/-- The builtin `rest`. -/
def rest (args : List Object) : Call :=
  let m := entry args
  if args.length > 1 then
    ⟨.returns (newError "wrong number of arguments, got=%d, want=1" [.int args.length]), m⟩
  else
    match (args[0]? : Option Object) with
    | none => ⟨.panics (indexOutOfRange 0 args.length), m⟩
    | some (.Array Elements) =>
      let l := (elements Elements).len
      if l = 0 then
        ⟨.returns NULL, m⟩
      else
        let (m, newArr) := make m (l - 1) (l - 1)
        match (elements Elements).slice 1 l with
        | none => ⟨.panics sliceOutOfRange, m⟩
        | some src =>
          let (m, _) := copy m newArr src
          ⟨newArray m newArr, m⟩
    | some arg =>
      ⟨.returns (newError "argument to `rest` not supported, got %s" [.str arg.Type']), m⟩

/-- The builtin `last`. -/
def last (args : List Object) : Outcome :=
  if args.length > 1 then
    .returns (newError "wrong number of arguments, got=%d, want=1" [.int args.length])
  else
    match (args[0]? : Option Object) with
    | none => .panics (indexOutOfRange 0 args.length)
    | some (.Array Elements) =>
      let l := Elements.length
      if l = 0 then
        .returns NULL
      else
        match (Elements[l - 1]? : Option Object) with
        | some e => .returns e
        | none => .panics (indexOutOfRange (l - 1) Elements.length)
    | some arg => .returns (newError "argument to `last` not supported, got %s" [.str arg.Type'])

/-- The builtin `push`. -/
def push (args : List Object) : Call :=
  let m := entry args
  if args.length < 2 then
    ⟨.returns (newError "wrong number of arguments, got=%d, want=2+" [.int args.length]), m⟩
  else
    match (args[0]? : Option Object) with
    | none => ⟨.panics (indexOutOfRange 0 args.length), m⟩
    | some (.Array Elements) =>
      let l := (elements Elements).len
      let (m, newElements) := make m l (l + (args.drop 1).length)
      let (m, _) := copy m newElements (elements Elements)
      let (m, newElements) := append m newElements ((args.drop 1).map some)
      ⟨newArray m newElements, m⟩
    | some arg =>
      ⟨.returns (newError "argument to `push` not supported, want ARRAY, got %s" [.str arg.Type']), m⟩

end builtins

end evaluator


/-! ## The specification's wording of the hash -/

namespace spec

/-- FNV-1a 64 as the specification words it: start from the offset basis
14695981039346656037 and, for each byte, xor it in and multiply by
1099511628211 modulo `2 ^ 64`. -/
def fnv1a64 (data : List Nat) : Nat :=
  data.foldl (fun h b => ((h ^^^ b) * 1099511628211) % 2 ^ 64) 14695981039346656037

end spec

/-! ## Package `strings` -/

namespace strings

/-- Go `strings.Join(elems, sep)`. -/
def Join : List String → String → String
  | [], _ => ""
  | [e], _ => e
  | e :: e' :: elems, sep => e ++ sep ++ Join (e' :: elems) sep

end strings

/-! ## Package `object`: the method `Inspect` -/

namespace object

mutual

/-- The method `Inspect()` of each implementation.  The pairs of a `Hash` are
visited in the order of the list that holds them. -/
def Inspect : Object → String
  | .ReturnValue Value => Inspect Value
  | .Error Message => "ERROR: " ++ Message
  | .Integer Value => fmt.Sprintf "%d" [.int Value]
  | .Boolean Value => fmt.Sprintf "%t" [.bool Value]
  | .Null _ => "null"
  | .Function Parameters Body _ =>
    let out := ""
    let params := Parameters
    let out := out ++ "fn"
    let out := out ++ "( "
    let out := out ++ strings.Join params ", "
    let out := out ++ ") "
    let out := out ++ Body
    out
  | .String Value => "\"" ++ Value ++ "\""
  | .Builtin _ => "builtin function"
  | .Array Elements =>
    let out := ""
    let elements := inspectElements Elements
    let out := out ++ "["
    let out := out ++ strings.Join elements ", "
    let out := out ++ "]"
    out
  | .Hash Pairs =>
    let out := ""
    let elements := inspectPairs Pairs
    let out := out ++ "\x7b"
    let out := out ++ strings.Join elements ", "
    let out := out ++ "\x7d"
    out

/-- The loop `for _, e := range a.Elements` of `(*Array).Inspect`: the
`Inspect` string of each element, in order. -/
def inspectElements : List Object → List String
  | [] => []
  | e :: es => Inspect e :: inspectElements es

/-- The loop `for _, p := range h.Pairs` of `(*Hash).Inspect`. -/
def inspectPairs : List (HashKey × Object × Object) → List String
  | [] => []
  | (_, Key, Value) :: ps => (Inspect Key ++ ":" ++ Inspect Value) :: inspectPairs ps

end

end object

/-! ## Package `object`: environments

An `*Environment` is an address into the list of the environments allocated so
far; `nil` is `none`. -/

namespace object

/-- The struct `Environment`: the map `store` and the pointer `outer`. -/
structure Environment where
  store : String → Option Object
  outer : Option Nat

/-- The environments allocated so far, by address. -/
abbrev Heap := List Environment

/-- Assignment through a pointer: the environment at address `e` becomes
`f` of it. -/
def Heap.update (h : Heap) (e : Nat) (f : Environment → Environment) : Heap :=
  match (h[e]? : Option Environment) with
  | some env => h.set e (f env)
  | none => h

/-- The function `NewEnvironment`: a new environment with an empty store and no
outer environment; the heap after the allocation and the new address. -/
def NewEnvironment (h : Heap) : Heap × Nat :=
  let s : String → Option Object := fun _ => none
  (h ++ [{ store := s, outer := none }], h.length)

/-- The function `NewEnclosedEnvironment`. -/
def NewEnclosedEnvironment (h : Heap) (outer : Option Nat) : Heap × Nat :=
  let (h, env) := NewEnvironment h
  let h := h.update env fun e => { e with outer := outer }
  (h, env)

/-- The method `(*Environment).Get`, with fuel for the calls along the chain
of outer environments: `obj, ok := e.store[name]`, then the call on `e.outer`
when `!ok && e.outer != nil`.  The result is `none` when the fuel runs out or
the address is not allocated. -/
def Environment.Get (h : Heap) : Nat → Nat → String → Option (Option Object × Bool)
  | 0, _, _ => none
  | fuel + 1, e, name =>
    match (h[e]? : Option Environment) with
    | none => none
    | some env =>
      let obj := env.store name
      let ok := obj.isSome
      match ok, env.outer with
      | false, some outer => Environment.Get h fuel outer name
      | _, _ => some (obj, ok)

/-- The method `(*Environment).Set`: `e.store[name] = val`, and `val` is
returned. -/
def Environment.Set (h : Heap) (e : Nat) (name : String) (val : Object) : Heap × Object :=
  (h.update e fun env =>
      { env with store := fun k => if k = name then some val else env.store k },
    val)

/-- The outer pointer of every allocated environment is an older address: the
invariant of the heaps that `NewEnvironment`, `NewEnclosedEnvironment` (on an
allocated or nil outer environment) and `Set` build. -/
def Heap.WF (h : Heap) : Prop :=
  ∀ (e : Nat) (env : Environment), h[e]? = some env → ∀ p, env.outer = some p → p < e

/-- The field read `e.store[name]` through a pointer (`none` when the name is
not bound, or the address not allocated). -/
def Heap.store (h : Heap) (e : Nat) (name : String) : Option Object :=
  match (h[e]? : Option Environment) with
  | some env => env.store name
  | none => none

/-- The field read `e.outer` through a pointer. -/
def Heap.outer (h : Heap) (e : Nat) : Option Nat :=
  match (h[e]? : Option Environment) with
  | some env => env.outer
  | none => none

/-- The ancestors of an environment: its outer environment, the outer
environment of that one, and so on. -/
inductive Ancestor (h : Heap) : Nat → Nat → Prop where
  | outer {e p : Nat} : h.outer e = some p → Ancestor h e p
  | step {e p a : Nat} : h.outer e = some p → Ancestor h p a → Ancestor h e a

/-- A heap with two environments: at address 0 one made by `NewEnvironment`, in
which `a` is then set to 1; at address 1 one made by `NewEnclosedEnvironment` on
the first, in which `b` is then set to 2. -/
def twoFrames : Heap :=
  let (h, global) := NewEnvironment []
  let (h, _) := Environment.Set h global "a" (.Integer 1)
  let (h, env) := NewEnclosedEnvironment h (some global)
  let (h, _) := Environment.Set h env "b" (.Integer 2)
  h

end object

/-! ## Package `evaluator`: the builtin `puts`, and repeated `rest` -/

namespace fmt

/-- Go `fmt.Println(s)` on a standard output that holds `stdout`: the string
and a newline are written. -/
def Println (stdout : String) (s : String) : String :=
  stdout ++ s ++ "\n"

end fmt

namespace evaluator

open object slices

namespace builtins

/-- The builtin `puts`, on a standard output that holds `stdout`: the outcome
and the standard output after the call. -/
def puts (stdout : String) (args : List Object) : Outcome × String :=
  if args.length < 1 then
    (.returns (newError "wrong number of arguments, got=%d, want=1+" [.int args.length]), stdout)
  else
    let stdout := args.foldl (fun out arg => fmt.Println out (Inspect arg)) stdout
    (.returns NULL, stdout)

end builtins

/-- The builtin `rest` applied `k` times, each time to the object the previous
application returned, as in the program `rest(rest(...rest(a)))`. -/
def restTimes : Nat → Object → Outcome
  | 0, o => .returns o
  | k + 1, o =>
    match restTimes k o with
    | .returns o' => (builtins.rest [o']).out
    | out => out

end evaluator

/-! ## Package `token` -/

namespace token

abbrev TokenType := String

def IDENT : TokenType := "IDENT"
def FUNCTION : TokenType := "FUNCTION"
def LET : TokenType := "LET"
def TRUE : TokenType := "TRUE"
def FALSE : TokenType := "FALSE"
def IF : TokenType := "IF"
def ELSE : TokenType := "ELSE"
def RETURN : TokenType := "RETURN"

/-- The map `keywords`, as the list of its entries. -/
def keywords : List (String × TokenType) :=
  [("fn", FUNCTION),
   ("let", LET),
   ("true", TRUE),
   ("false", FALSE),
   ("if", IF),
   ("else", ELSE),
   ("return", RETURN)]

/-- The function `LookupIdent`. -/
def LookupIdent (ident : String) : TokenType :=
  match keywords.lookup ident with
  | some tok => tok
  | none => IDENT

end token

namespace slices
open object

theorem nonNil_map_some (xs : List Object) : nonNil (xs.map some) = some xs := by
  induction xs with
  | nil => rfl
  | cons x xs ih => simp [nonNil, ih]

theorem take_length_map_some (xs : List Object) :
    List.take xs.length (xs.map some) = xs.map some :=
  List.take_of_length_le (by simp)

end slices

namespace evaluator
open object slices

theorem rest_cons (e : Object) (es : List Object) :
    builtins.rest [.Array (e :: es)] =
      ⟨.returns (.Array es), [(e :: es).map some, es.map some]⟩ := by
  simp [builtins.rest, entry, elements, make, Slice.slice, copy, newArray,
    Memory.store, Memory.load, Memory.array, nonNil_map_some, take_length_map_some]

theorem push_cons (a : List Object) (v : Object) (vs : List Object) :
    builtins.push (.Array a :: v :: vs) =
      ⟨.returns (.Array (a ++ v :: vs)), [a.map some, (a ++ v :: vs).map some]⟩ := by
  have h1 : ¬ (vs.length + 1 + 1 < 2) := by omega
  have h2 : List.drop (a.length + (vs.length + 1))
      (List.map some a ++ List.replicate (vs.length + 1) (none : Option Object)) = [] :=
    List.drop_eq_nil_of_le (by simp)
  have h3 : List.take (a.length + (vs.length + 1))
      (List.map some a ++ some v :: List.map some vs) = List.map some (a ++ v :: vs) := by
    rw [List.take_of_length_le (by simp)]; simp
  simp [builtins.push, entry, elements, make, copy, append, newArray,
    Memory.store, Memory.load, Memory.array, take_length_map_some, h1, h2, h3]
  have h4 := nonNil_map_some (a ++ v :: vs)
  simp only [List.map_append, List.map_cons] at h4
  rw [h4]

end evaluator

/-! ## Auxiliary facts -/

namespace object

theorem length_bytes (s : String) : (bytes s).length = s.utf8ByteSize := by
  simp [bytes, ← String.size_toUTF8, ByteArray.size]

theorem uint64_cast (v : Int) : ((uint64 v : Nat) : Int) = v % (2 : Int) ^ 64 := by
  unfold uint64
  exact Int.toNat_of_nonneg (Int.emod_nonneg _ (by norm_num))

theorem uint64_inj (v w : Int) (hv : int64 v) (hw : int64 w) (h : uint64 v = uint64 w) :
    v = w := by
  have h' : ((uint64 v : Nat) : Int) = ((uint64 w : Nat) : Int) := by rw [h]
  rw [uint64_cast, uint64_cast] at h'
  unfold int64 at hv hw
  omega

end object

namespace fnv

theorem Write_eq_foldl (data : List Nat) (s : Nat) :
    Write s data = data.foldl (fun h b => ((h ^^^ b) * 1099511628211) % 2 ^ 64) s := by
  induction data generalizing s with
  | nil => rfl
  | cons c data ih => simp [Write, ih, prime64]

end fnv

namespace evaluator
open object slices

/-- With two arguments or more, `len`, `first`, `rest` and `last` return the
arity Error. -/
theorem arity_error_of_two_le (x y : Object) (zs : List Object) :
    builtins.len (x :: y :: zs) = .returns (.Error
      ("wrong number of arguments, got=" ++ toString (x :: y :: zs).length ++ ", want=1")) ∧
    builtins.first (x :: y :: zs) = .returns (.Error
      ("wrong number of arguments, got=" ++ toString (x :: y :: zs).length ++ ", want=1")) ∧
    (builtins.rest (x :: y :: zs)).out = .returns (.Error
      ("wrong number of arguments, got=" ++ toString (x :: y :: zs).length ++ ", want=1")) ∧
    builtins.last (x :: y :: zs) = .returns (.Error
      ("wrong number of arguments, got=" ++ toString (x :: y :: zs).length ++ ", want=1")) := by
  have h : (x :: y :: zs).length > 1 := by simp
  refine ⟨?_, ?_, ?_, ?_⟩
  · rw [builtins.len, if_pos h]; rfl
  · rw [builtins.first, if_pos h]; rfl
  · rw [builtins.rest]; simp only [if_pos h]; rfl
  · rw [builtins.last, if_pos h]; rfl

end evaluator

/-! ## Auxiliary facts on environments -/

namespace object

theorem Heap.getElem?_update (h : Heap) (e : Nat) (f : Environment → Environment) (a : Nat) :
    (h.update e f)[a]? = if e = a then (h[a]?).map f else h[a]? := by
  unfold Heap.update
  split
  · next env henv =>
    rw [List.getElem?_set]
    by_cases hea : e = a
    · subst hea
      have hlt : e < h.length := by
        rcases Nat.lt_or_ge e h.length with hl | hl
        · exact hl
        · rw [List.getElem?_eq_none hl] at henv; cases henv
      simp [henv, hlt]
    · simp [hea]
  · next hnone =>
    by_cases hea : e = a
    · subst hea; simp [hnone]
    · simp [hea]

theorem Environment.Get_unallocated (h : Heap) (fuel e : Nat) (name : String)
    (henv : (h[e]? : Option Environment) = none) :
    Environment.Get h (fuel + 1) e name = none := by
  simp [Environment.Get, henv]

theorem Environment.Get_hit (h : Heap) (fuel e : Nat) (name : String) (env : Environment)
    (v : Object) (henv : h[e]? = some env) (hv : env.store name = some v) :
    Environment.Get h (fuel + 1) e name = some (some v, true) := by
  simp [Environment.Get, henv, hv]

theorem Environment.Get_miss_outer (h : Heap) (fuel e : Nat) (name : String)
    (env : Environment) (p : Nat) (henv : h[e]? = some env) (hv : env.store name = none)
    (hp : env.outer = some p) :
    Environment.Get h (fuel + 1) e name = Environment.Get h fuel p name := by
  simp [Environment.Get, henv, hv, hp]

theorem Environment.Get_miss_root (h : Heap) (fuel e : Nat) (name : String)
    (env : Environment) (henv : h[e]? = some env) (hv : env.store name = none)
    (hp : env.outer = none) :
    Environment.Get h (fuel + 1) e name = some (none, false) := by
  simp [Environment.Get, henv, hv, hp]

/-- With a well-formed heap, any fuel above the address gives the result that
fuel `e + 1` gives. -/
theorem Environment.Get_fuel (h : Heap) (hwf : h.WF) (name : String) :
    ∀ (e fuel : Nat), e < fuel →
      Environment.Get h fuel e name = Environment.Get h (e + 1) e name := by
  intro e
  induction e using Nat.strong_induction_on with
  | _ e ih =>
    intro fuel hfuel
    obtain ⟨f, rfl⟩ : ∃ f, fuel = f + 1 := ⟨fuel - 1, by omega⟩
    cases henv : (h[e]? : Option Environment) with
    | none => rw [Environment.Get_unallocated h f e name henv,
        Environment.Get_unallocated h e e name henv]
    | some env =>
      cases hv : env.store name with
      | some v => rw [Environment.Get_hit h f e name env v henv hv,
          Environment.Get_hit h e e name env v henv hv]
      | none =>
        cases houter : env.outer with
        | none => rw [Environment.Get_miss_root h f e name env henv hv houter,
            Environment.Get_miss_root h e e name env henv hv houter]
        | some p =>
          have hp : p < e := hwf e env henv p houter
          rw [Environment.Get_miss_outer h f e name env p henv hv houter,
            Environment.Get_miss_outer h e e name env p henv hv houter,
            ih p hp f (by omega), ih p hp e hp]

/-- With a well-formed heap, `Get` on an allocated environment returns. -/
theorem Environment.Get_returns (h : Heap) (hwf : h.WF) (name : String) :
    ∀ (e : Nat), e < h.length → ∃ r, Environment.Get h (e + 1) e name = some r := by
  intro e
  induction e using Nat.strong_induction_on with
  | _ e ih =>
    intro he
    have henv : (h[e]? : Option Environment) = some h[e] := List.getElem?_eq_getElem he
    cases hv : h[e].store name with
    | some v => exact ⟨_, Environment.Get_hit h e e name _ v henv hv⟩
    | none =>
      cases houter : h[e].outer with
      | none => exact ⟨_, Environment.Get_miss_root h e e name _ henv hv houter⟩
      | some p =>
        have hp : p < e := hwf e _ henv p houter
        obtain ⟨r, hr⟩ := ih p hp (by omega)
        refine ⟨r, ?_⟩
        rw [Environment.Get_miss_outer h e e name _ p henv hv houter,
          Environment.Get_fuel h hwf name p e hp, hr]

/-- Two heaps that hold the same environments below an address `c`, the first
of them well formed, give the same `Get` on every address below `c`. -/
theorem Environment.Get_congr (h h' : Heap) (hwf : h.WF) (c : Nat)
    (hsame : ∀ a, a < c → (h'[a]? : Option Environment) = h[a]?) (name : String) :
    ∀ (fuel a : Nat), a < c →
      Environment.Get h' fuel a name = Environment.Get h fuel a name := by
  intro fuel
  induction fuel with
  | zero => intro a _; rfl
  | succ f ih =>
    intro a ha
    have hsame' := hsame a ha
    cases henv : (h[a]? : Option Environment) with
    | none =>
      rw [henv] at hsame'
      rw [Environment.Get_unallocated h f a name henv,
        Environment.Get_unallocated h' f a name hsame']
    | some env =>
      rw [henv] at hsame'
      cases hv : env.store name with
      | some v => rw [Environment.Get_hit h f a name env v henv hv,
          Environment.Get_hit h' f a name env v hsame' hv]
      | none =>
        cases houter : env.outer with
        | none => rw [Environment.Get_miss_root h f a name env henv hv houter,
            Environment.Get_miss_root h' f a name env hsame' hv houter]
        | some p =>
          rw [Environment.Get_miss_outer h f a name env p henv hv houter,
            Environment.Get_miss_outer h' f a name env p hsame' hv houter]
          exact ih p (Nat.lt_trans (hwf a env henv p houter) ha)

theorem Heap.outer_eq (h : Heap) (e : Nat) (env : Environment) (henv : h[e]? = some env) :
    h.outer e = env.outer := by
  simp [Heap.outer, henv]

theorem Heap.store_eq (h : Heap) (e : Nat) (env : Environment) (henv : h[e]? = some env)
    (name : String) : h.store e name = env.store name := by
  simp [Heap.store, henv]

theorem Heap.outer_lt (h : Heap) (hwf : h.WF) (e p : Nat) (hp : h.outer e = some p) : p < e := by
  cases henv : (h[e]? : Option Environment) with
  | none => simp [Heap.outer, henv] at hp
  | some env =>
    rw [Heap.outer_eq h e env henv] at hp
    exact hwf e env henv p hp

theorem Ancestor.lt {h : Heap} (hwf : h.WF) {e a : Nat} (hanc : Ancestor h e a) : a < e := by
  induction hanc with
  | outer houter => exact Heap.outer_lt h hwf _ _ houter
  | step houter _ ih => exact Nat.lt_trans ih (Heap.outer_lt h hwf _ _ houter)

theorem Heap.WF_nil : Heap.WF [] := by
  intro e env henv
  simp at henv

theorem NewEnvironment_WF (h : Heap) (hwf : h.WF) : (NewEnvironment h).1.WF := by
  intro e env henv p hp
  simp only [NewEnvironment] at henv
  rcases Nat.lt_or_ge e h.length with hl | hl
  · rw [List.getElem?_append_left hl] at henv
    exact hwf e env henv p hp
  · rw [List.getElem?_append_right hl] at henv
    have : env = { store := fun _ => none, outer := none } := by
      cases hsub : e - h.length with
      | zero => rw [hsub] at henv; simpa using henv.symm
      | succ k => rw [hsub] at henv; simp at henv
    subst this
    cases hp

theorem Set_WF (h : Heap) (hwf : h.WF) (e : Nat) (name : String) (val : Object) :
    (Environment.Set h e name val).1.WF := by
  intro a env henv p hp
  simp only [Environment.Set, Heap.getElem?_update] at henv
  split at henv
  · cases hold : (h[a]? : Option Environment) with
    | none => rw [hold] at henv; cases henv
    | some env0 =>
      rw [hold] at henv
      simp only [Option.map_some', Option.some.injEq] at henv
      subst henv
      exact hwf a env0 hold p hp
  · exact hwf a env henv p hp

theorem NewEnclosedEnvironment_WF (h : Heap) (hwf : h.WF) (outer : Option Nat)
    (houter : ∀ p, outer = some p → p < h.length) :
    (NewEnclosedEnvironment h outer).1.WF := by
  intro a env henv p hp
  simp only [NewEnclosedEnvironment, Heap.getElem?_update] at henv
  have hnew := NewEnvironment_WF h hwf
  split at henv
  · next heq =>
    cases hold : ((NewEnvironment h).1[a]? : Option Environment) with
    | none => rw [hold] at henv; cases henv
    | some env0 =>
      rw [hold] at henv
      simp only [Option.map_some', Option.some.injEq] at henv
      subst henv
      simp only at hp
      have : a = h.length := by rw [← heq]; rfl
      rw [this]
      exact houter p hp
  · exact hnew a env henv p hp

end object

namespace object

/-- The environment that `NewEnclosedEnvironment` makes has the given outer
environment. -/
theorem NewEnclosedEnvironment_outer (h : Heap) (outer : Option Nat) :
    (NewEnclosedEnvironment h outer).1.outer (NewEnclosedEnvironment h outer).2 = outer := by
  have hnew : ((NewEnvironment h).1[h.length]? : Option Environment)
      = some { store := fun _ => none, outer := none } := by
    simp [NewEnvironment]
  show Heap.outer ((NewEnvironment h).1.update h.length fun e => { e with outer := outer })
    h.length = outer
  unfold Heap.outer
  rw [Heap.getElem?_update, if_pos rfl, hnew]
  rfl

theorem twoFrames_eq :
    twoFrames =
      (Environment.Set
        (NewEnclosedEnvironment (Environment.Set (NewEnvironment []).1 0 "a" (.Integer 1)).1
          (some 0)).1 1 "b" (.Integer 2)).1 := rfl

theorem twoFrames_WF : twoFrames.WF := by
  rw [twoFrames_eq]
  refine Set_WF _ (NewEnclosedEnvironment_WF _
    (Set_WF _ (NewEnvironment_WF [] Heap.WF_nil) 0 "a" (.Integer 1)) (some 0) ?_) 1 "b" (.Integer 2)
  intro p hp
  simp only [Option.some.injEq] at hp
  subst hp
  decide

end object

/-! ## Auxiliary facts on strings, `Inspect`, `puts` and repeated `rest` -/

namespace strings

theorem intercalate_go (sep acc : String) (elems : List String) :
    String.intercalate.go acc sep elems =
      match elems with
      | [] => acc
      | e :: es => acc ++ sep ++ String.intercalate.go e sep es := by
  induction elems generalizing acc with
  | nil => rfl
  | cons e es ih =>
    simp only [String.intercalate.go]
    rw [ih (acc ++ sep ++ e)]
    cases es with
    | nil => rfl
    | cons e' es' =>
      simp only []
      rw [ih e]
      simp only [String.append_assoc]

/-- Go `strings.Join` is the library `String.intercalate`. -/
theorem Join_eq_intercalate (elems : List String) (sep : String) :
    Join elems sep = sep.intercalate elems := by
  induction elems with
  | nil => rfl
  | cons e es ih =>
    cases es with
    | nil => rfl
    | cons e' es' =>
      simp only [Join, String.intercalate] at ih ⊢
      rw [ih, intercalate_go sep e (e' :: es')]

end strings

namespace fmt

theorem Sprintf_d (n : Int) : Sprintf "%d" [.int n] = toString n := by
  show String.mk ((toString n).data ++ []) = toString n
  rw [List.append_nil]

theorem Sprintf_t (b : Bool) : Sprintf "%t" [.bool b] = toString b := by
  show String.mk ((toString b).data ++ []) = toString b
  rw [List.append_nil]

end fmt

namespace object

theorem inspectElements_eq_map (es : List Object) : inspectElements es = es.map Inspect := by
  induction es with
  | nil => rfl
  | cons e es ih => simp [inspectElements, ih]

theorem bytes_append (s t : String) : bytes (s ++ t) = bytes s ++ bytes t := by
  simp [bytes, String.toUTF8]

end object

namespace evaluator
open object slices

theorem foldl_Println (args : List Object) (stdout : String) :
    args.foldl (fun out arg => fmt.Println out (Inspect arg)) stdout =
      stdout ++ String.join (args.map fun a => Inspect a ++ "\n") := by
  have hjoin : ∀ (l : List String) (acc : String),
      l.foldl (fun r s => r ++ s) acc = acc ++ String.join l := by
    intro l
    induction l with
    | nil => intro acc; simp [String.join]
    | cons s l ih =>
      intro acc
      simp only [List.foldl_cons, String.join]
      rw [ih (acc ++ s), ih ("" ++ s), String.empty_append, String.append_assoc]
  have hcons : ∀ (s : String) (l : List String), String.join (s :: l) = s ++ String.join l := by
    intro s l
    show List.foldl (fun r s => r ++ s) ("" ++ s) l = s ++ String.join l
    rw [hjoin, String.empty_append]
  induction args generalizing stdout with
  | nil => simp [String.join]
  | cons a args ih =>
    simp only [List.foldl_cons, List.map_cons]
    rw [ih, hcons, fmt.Println]
    simp only [String.append_assoc]

theorem restTimes_drop (a : List Object) :
    ∀ k, k ≤ a.length → restTimes k (.Array a) = .returns (.Array (a.drop k)) := by
  intro k
  induction k with
  | zero => intro _; rfl
  | succ k ih =>
    intro hk
    have hlt : k < a.length := hk
    rw [restTimes, ih (Nat.le_of_lt hlt)]
    simp only []
    rw [List.drop_eq_getElem_cons hlt, rest_cons]

end evaluator

/-! ## The claims -/

open object slices evaluator evaluator.builtins

/-- C1: for every Array `a` and every non-empty list of values `vs`, `push`
applied to `(a, vs...)` returns an Array whose elements are those of `a` in
order followed by `vs` in order.  The backing array of `a` (address 0) holds the
elements of `a` at the entry of the call and when it returns, and the result
lies in a backing array of its own (address 1). -/
theorem C1_push_appends (a vs : List Object) (hvs : vs ≠ []) :
    (push (.Array a :: vs)).out = .returns (.Array (a ++ vs)) ∧
    entry (.Array a :: vs) = [a.map some] ∧
    (push (.Array a :: vs)).mem = [a.map some, (a ++ vs).map some] := by
  cases vs with
  | nil => exact absurd rfl hvs
  | cons v vs => rw [push_cons]; exact ⟨rfl, rfl, rfl⟩

/-- C1 at `a = [1, 3, 5]` and `vs = [7]`. -/
theorem C1_push_appends_witness :
    [Object.Integer 7] ≠ [] ∧
    ((push (.Array [Object.Integer 1, Object.Integer 3, Object.Integer 5] :: [Object.Integer 7])).out
        = .returns (.Array ([Object.Integer 1, Object.Integer 3, Object.Integer 5] ++ [Object.Integer 7])) ∧
      entry (.Array [Object.Integer 1, Object.Integer 3, Object.Integer 5] :: [Object.Integer 7])
        = [[Object.Integer 1, Object.Integer 3, Object.Integer 5].map some] ∧
      (push (.Array [Object.Integer 1, Object.Integer 3, Object.Integer 5] :: [Object.Integer 7])).mem
        = [[Object.Integer 1, Object.Integer 3, Object.Integer 5].map some,
            ([Object.Integer 1, Object.Integer 3, Object.Integer 5] ++ [Object.Integer 7]).map some]) :=
  ⟨by simp, C1_push_appends [Object.Integer 1, Object.Integer 3, Object.Integer 5] [Object.Integer 7] (by simp)⟩

/-- C2, as stated, fails: the two distinct Strings `8yn0iYCKYHlIj4-BwPqk` and
`GReLUrM4wMqfg9yzV3KQ` are hashable and have the same `HashKey`. -/
theorem C2_distinct_strings_share_a_key :
    (Object.String "8yn0iYCKYHlIj4-BwPqk").Hashable ∧
    (Object.String "GReLUrM4wMqfg9yzV3KQ").Hashable ∧
    (Object.String "8yn0iYCKYHlIj4-BwPqk").HashKey
      = (Object.String "GReLUrM4wMqfg9yzV3KQ").HashKey ∧
    Object.String "8yn0iYCKYHlIj4-BwPqk" ≠ Object.String "GReLUrM4wMqfg9yzV3KQ" := by
  refine ⟨trivial, trivial, by decide, ?_⟩
  intro h
  injection h with h
  exact absurd h (by decide)

/-- C2, amended: for hashable values `x` and `y`, equal values have equal hash
keys, and equal hash keys imply equal values unless both `x` and `y` are
Strings. -/
theorem C2_hash_key_stability (x y : Object) (hx : x.Hashable) (hy : y.Hashable) :
    (x = y → x.HashKey = y.HashKey) ∧
    (x.HashKey = y.HashKey → x = y ∨ ∃ s t, x = Object.String s ∧ y = Object.String t) := by
  refine ⟨fun h => by rw [h], fun h => ?_⟩
  cases x <;> cases y <;>
    simp only [Object.Hashable] at hx hy <;>
    simp only [Object.HashKey, Option.some.injEq, Integer.HashKey, Boolean.HashKey,
      String.HashKey, Object.Type', HashKey.mk.injEq, INTEGER_OBJ, BOOLEAN_OBJ,
      STRING_OBJ] at h
  case Integer.Integer v w => exact Or.inl (by rw [uint64_inj v w hx hy h.2])
  case Boolean.Boolean a b =>
    left
    cases a <;> cases b <;> simp at h ⊢
  case String.String s t => exact Or.inr ⟨s, t, rfl, rfl⟩
  all_goals exact absurd h.1 (by decide)

/-- C2 amended, at the Integers 4 and 4. -/
theorem C2_hash_key_stability_witness :
    (Object.Integer 4).Hashable ∧ (Object.Integer 4).Hashable ∧
    ((Object.Integer 4 = Object.Integer 4 →
        (Object.Integer 4).HashKey = (Object.Integer 4).HashKey) ∧
      ((Object.Integer 4).HashKey = (Object.Integer 4).HashKey →
        Object.Integer 4 = Object.Integer 4 ∨
          ∃ s t, Object.Integer 4 = Object.String s ∧ Object.Integer 4 = Object.String t)) :=
  ⟨by unfold Object.Hashable; decide, by unfold Object.Hashable; decide,
    C2_hash_key_stability (.Integer 4) (.Integer 4)
      (by unfold Object.Hashable; decide) (by unfold Object.Hashable; decide)⟩

/-- C3 fails on the empty argument list: `len`, `first`, `rest` and `last`
test `len(args) > 1` only, so with no argument they reach `args[0]` and the Go
run time panics instead of returning the arity Error. -/
theorem C3_no_argument_panics :
    len [] = .panics "runtime error: index out of range [0] with length 0" ∧
    first [] = .panics "runtime error: index out of range [0] with length 0" ∧
    (rest []).out = .panics "runtime error: index out of range [0] with length 0" ∧
    last [] = .panics "runtime error: index out of range [0] with length 0" :=
  ⟨rfl, rfl, rfl, rfl⟩

/-- C4 fails on Builtin values: `Type()` gives `INTEGER`, `BOOLEAN`, `NULL`,
`STRING`, `ARRAY`, `HASH` and `FUNCTION` as claimed, but the tag of a Builtin is
the misspelt `BULITIN`, and that is what the error message of `len` applied to a
builtin shows. -/
theorem C4_type_tags (n : Int) (b : Bool) (s : String) (es : List Object)
    (ps : List (HashKey × Object × Object)) (params : List String) (body : String)
    (env : Nat) (f : BuiltinFunction) :
    (Object.Integer n).Type' = "INTEGER" ∧
    (Object.Boolean b).Type' = "BOOLEAN" ∧
    (Object.Null n).Type' = "NULL" ∧
    (Object.String s).Type' = "STRING" ∧
    (Object.Array es).Type' = "ARRAY" ∧
    (Object.Hash ps).Type' = "HASH" ∧
    (Object.Function params body env).Type' = "FUNCTION" ∧
    (Object.Builtin f).Type' = "BULITIN" ∧
    (Object.Builtin f).Type' ≠ "BUILTIN" ∧
    len [Object.Builtin f]
      = .returns (.Error "argument to `len` not supported, got BULITIN") := by
  refine ⟨rfl, rfl, rfl, rfl, rfl, rfl, rfl, rfl, ?_, rfl⟩
  show BUILTIN_OBJ ≠ "BUILTIN"
  decide

/-- C5: for every single argument `v`, `len` returns the Integer holding the
number of bytes of `s` when `v` is the String `s`, the Integer holding the
number of elements when `v` is an Array, and otherwise the Error
`argument to len not supported, got <TYPE>` (with `len` between backquotes)
where `<TYPE>` is the type tag of `v`. -/
theorem C5_len_single_argument (v : Object) :
    len [v] = .returns
      (match v with
       | .String s => .Integer (bytes s).length
       | .Array es => .Integer es.length
       | _ => .Error ("argument to `len` not supported, got " ++ v.Type')) := by
  cases v <;> first
    | rfl
    | (simp only [length_bytes]; rfl)

/-- C6: for every single argument `v`, `rest` returns `NULL` when `v` is an empty
Array, an Array of the elements of `v` at the indices `1..n-1` in order when `v`
is an Array of `n ≥ 1` elements (the empty Array when `n = 1`), and the Error
`argument to rest not supported, got <TYPE>` (with `rest` between backquotes)
when `v` is not an Array.  The backing arrays present at the entry of the call
are unchanged when it returns.  For a non-empty Array the backing array of `v`
(address 0) holds the elements of `v` at the entry of the call and when it
returns, and the result lies in a backing array of its own (address 1), which
the call allocates; in every other case the call allocates nothing. -/
theorem C6_rest_single_argument (v : Object) :
    (rest [v]).out = .returns
      (match v with
       | .Array [] => NULL
       | .Array (_ :: es) => .Array es
       | _ => .Error ("argument to `rest` not supported, got " ++ v.Type')) ∧
    entry [v] <+: (rest [v]).mem ∧
    entry [v] =
      (match v with
       | .Array a => [a.map some]
       | _ => []) ∧
    (rest [v]).mem =
      (match v with
       | .Array [] => [[]]
       | .Array (e :: es) => [(e :: es).map some, es.map some]
       | _ => []) := by
  cases v
  case Array es =>
    cases es with
    | nil => exact ⟨rfl, List.prefix_refl _, rfl, rfl⟩
    | cons e es =>
      rw [rest_cons]
      exact ⟨rfl, ⟨[es.map some], rfl⟩, rfl, rfl⟩
  all_goals exact ⟨rfl, List.prefix_refl _, rfl, rfl⟩

/-- C7: for every single argument `v`, `first` returns the element at index 0
when `v` is a non-empty Array, `NULL` when `v` is an empty Array, and the Error
`argument to first not supported, got <TYPE>` (with `first` between backquotes),
`<TYPE>` being the type tag of `v`, when `v` is not an Array. -/
theorem C7_first_single_argument (v : Object) :
    first [v] = .returns
      (match v with
       | .Array [] => NULL
       | .Array (e :: _) => e
       | _ => .Error ("argument to `first` not supported, got " ++ v.Type')) := by
  cases v
  case Array es =>
    cases es with
    | nil => rfl
    | cons e es => simp [first]
  all_goals rfl

/-- C8: for every single argument `v`, `last` returns the element at index `n-1`
when `v` is an Array of `n ≥ 1` elements, `NULL` when `v` is an empty Array, and
the Error `argument to last not supported, got <TYPE>` (with `last` between
backquotes) when `v` is not an Array. -/
theorem C8_last_single_argument (v : Object) :
    last [v] = .returns
      (match v with
       | .Array [] => NULL
       | .Array (e :: es) => (e :: es).get ⟨(e :: es).length - 1, by simp⟩
       | _ => .Error ("argument to `last` not supported, got " ++ v.Type')) := by
  cases v
  case Array es =>
    cases es with
    | nil => rfl
    | cons e es => simp [last]
  all_goals rfl

/-- C9: `push` rejects bad calls.  For every argument list of length `n < 2` it
returns the Error `wrong number of arguments, got=<n>, want=2+`, whatever the
first argument is; for every argument list of length at least 2 whose first
element `v` is not an Array it returns the Error
`argument to push not supported, want ARRAY, got <TYPE>` (with `push` between
backquotes), `<TYPE>` being the type tag of `v`. -/
theorem C9_push_rejects (args : List Object) :
    (args.length < 2 →
      (push args).out = .returns
        (.Error ("wrong number of arguments, got=" ++ toString args.length ++ ", want=2+"))) ∧
    (2 ≤ args.length → ∀ v, args[0]? = some v → (∀ a, v ≠ Object.Array a) →
      (push args).out = .returns
        (.Error ("argument to `push` not supported, want ARRAY, got " ++ v.Type'))) := by
  constructor
  · intro h
    match args, h with
    | [], _ => rfl
    | [_], _ => rfl
  · intro h v hv hna
    match args, h, hv with
    | x :: y :: zs, _, hv =>
      simp only [List.getElem?_cons_zero, Option.some.injEq] at hv
      subst hv
      cases x <;> first
        | exact absurd rfl (hna _)
        | (simp [push]; rfl)

/-- C9 at the one-element list `[[]]` (an Array, still the arity Error) and at
`[1, 2]` (first argument an Integer). -/
theorem C9_push_rejects_witness :
    ([Object.Array []].length < 2 ∧
      (push [Object.Array []]).out = .returns
        (.Error ("wrong number of arguments, got=" ++ toString [Object.Array []].length
          ++ ", want=2+"))) ∧
    (2 ≤ [Object.Integer 1, Object.Integer 2].length ∧
      [Object.Integer 1, Object.Integer 2][0]? = some (Object.Integer 1) ∧
      (∀ a, Object.Integer 1 ≠ Object.Array a) ∧
      (push [Object.Integer 1, Object.Integer 2]).out = .returns
        (.Error ("argument to `push` not supported, want ARRAY, got "
          ++ (Object.Integer 1).Type'))) :=
  ⟨⟨by decide, (C9_push_rejects [Object.Array []]).1 (by decide)⟩,
    by decide, rfl, fun _ h => Object.noConfusion h,
    (C9_push_rejects [Object.Integer 1, Object.Integer 2]).2 (by decide) (Object.Integer 1) rfl
      (fun _ h => Object.noConfusion h)⟩

/-- C10: derivation of the hash keys.  For an Integer holding the `int64` value
`n` the key is `(INTEGER, n mod 2^64)`, which is `n` when `n ≥ 0` and `n + 2^64`
when `n < 0`; for a Boolean `b` it is `(BOOLEAN, 1)` when `b` is true and
`(BOOLEAN, 0)` otherwise; for a String `s` it is `(STRING, h)` with `h` the
FNV-1a 64-bit hash of the bytes of `s` as the specification words it. -/
theorem C10_hash_key_derivation :
    (∀ n : Int, int64 n →
      Integer.HashKey n = { Type' := "INTEGER", Value := (n % 2 ^ 64).toNat } ∧
      (0 ≤ n → ((Integer.HashKey n).Value : Int) = n) ∧
      (n < 0 → ((Integer.HashKey n).Value : Int) = n + 2 ^ 64)) ∧
    (∀ b : Bool,
      Boolean.HashKey b = { Type' := "BOOLEAN", Value := if b then 1 else 0 }) ∧
    (∀ s : String,
      String.HashKey s = { Type' := "STRING", Value := spec.fnv1a64 (bytes s) }) := by
  refine ⟨fun n hn => ⟨rfl, fun h0 => ?_, fun h0 => ?_⟩, fun b => rfl, fun s => ?_⟩
  · show ((uint64 n : Nat) : Int) = n
    rw [uint64_cast]; unfold int64 at hn; omega
  · show ((uint64 n : Nat) : Int) = n + 2 ^ 64
    rw [uint64_cast]; unfold int64 at hn; omega
  · show ({ Type' := STRING_OBJ, Value := fnv.Sum64 (fnv.Write fnv.New64a (bytes s)) } : HashKey) = _
    rw [fnv.Sum64, fnv.Write_eq_foldl]
    rfl

/-- C10 at the Integer `-1`, whose key value is `2^64 - 1`. -/
theorem C10_hash_key_derivation_witness :
    int64 (-1) ∧
    (Integer.HashKey (-1) = { Type' := "INTEGER", Value := ((-1 : Int) % 2 ^ 64).toNat } ∧
      ((0 : Int) ≤ -1 → ((Integer.HashKey (-1)).Value : Int) = -1) ∧
      ((-1 : Int) < 0 → ((Integer.HashKey (-1)).Value : Int) = -1 + 2 ^ 64)) :=
  ⟨by decide, C10_hash_key_derivation.1 (-1) (by decide)⟩

/-- C11: hashable values of different variants never have the same `HashKey`:
an Integer and a Boolean, an Integer and a String, a Boolean and a String
always differ in the type tag of their keys, even when the 64-bit components are
equal, as for the Integer 1 and the Boolean `true`. -/
theorem C11_variants_never_collide (n : Int) (b : Bool) (s : String) :
    (Object.Integer n).HashKey ≠ (Object.Boolean b).HashKey ∧
    (Object.Boolean b).HashKey ≠ (Object.Integer n).HashKey ∧
    (Object.Integer n).HashKey ≠ (Object.String s).HashKey ∧
    (Object.String s).HashKey ≠ (Object.Integer n).HashKey ∧
    (Object.Boolean b).HashKey ≠ (Object.String s).HashKey ∧
    (Object.String s).HashKey ≠ (Object.Boolean b).HashKey ∧
    (Integer.HashKey 1).Value = (Boolean.HashKey true).Value ∧
    (Object.Integer 1).HashKey ≠ (Object.Boolean true).HashKey := by
  have key : ∀ (t u : ObjectType) (x y : Nat), t ≠ u →
      some ({ Type' := t, Value := x } : HashKey) ≠ some { Type' := u, Value := y } := by
    intro t u x y htu h
    simp only [Option.some.injEq, HashKey.mk.injEq] at h
    exact htu h.1
  exact ⟨key INTEGER_OBJ BOOLEAN_OBJ _ _ (by decide), key BOOLEAN_OBJ INTEGER_OBJ _ _ (by decide),
    key INTEGER_OBJ STRING_OBJ _ _ (by decide), key STRING_OBJ INTEGER_OBJ _ _ (by decide),
    key BOOLEAN_OBJ STRING_OBJ _ _ (by decide), key STRING_OBJ BOOLEAN_OBJ _ _ (by decide),
    by decide, key INTEGER_OBJ BOOLEAN_OBJ _ _ (by decide)⟩

/-- C12: `Get` walks the chain of outer environments.  In a well-formed heap,
for an allocated environment `e` and a name `n`, `Get` returns; when `n` is
bound in the store of `e` it returns that binding with `ok = true`, whatever
the ancestors bind; otherwise, when `e` has an outer environment `p`, it returns
what `Get` on `p` returns; otherwise it returns the nil object with
`ok = false`. -/
theorem C12_get_walks_chain (h : Heap) (hwf : h.WF) (e : Nat) (he : e < h.length)
    (n : String) (fuel : Nat) (hfuel : e < fuel) :
    (∃ r, Environment.Get h fuel e n = some r) ∧
    (∀ v, h.store e n = some v → Environment.Get h fuel e n = some (some v, true)) ∧
    (h.store e n = none → ∀ p, h.outer e = some p → ∀ fuel', p < fuel' →
      Environment.Get h fuel e n = Environment.Get h fuel' p n) ∧
    (h.store e n = none → h.outer e = none →
      Environment.Get h fuel e n = some (none, false)) := by
  have henv : (h[e]? : Option Environment) = some h[e] := List.getElem?_eq_getElem he
  rw [Heap.store_eq h e _ henv, Heap.outer_eq h e _ henv, Environment.Get_fuel h hwf n e fuel hfuel]
  refine ⟨Environment.Get_returns h hwf n e he, ?_, ?_, ?_⟩
  · intro v hv
    exact Environment.Get_hit h e e n _ v henv hv
  · intro hv p hp fuel' hfuel'
    have hpe : p < e := hwf e _ henv p hp
    rw [Environment.Get_miss_outer h e e n _ p henv hv hp,
      Environment.Get_fuel h hwf n p e hpe, Environment.Get_fuel h hwf n p fuel' hfuel']
  · intro hv hp
    exact Environment.Get_miss_root h e e n _ henv hv hp

/-- C12 on the heap `twoFrames`, at the enclosed environment and the name `a`,
which only the outer environment binds. -/
theorem C12_get_walks_chain_witness :
    twoFrames.WF ∧ 1 < twoFrames.length ∧ 1 < 2 ∧
    ((∃ r, Environment.Get twoFrames 2 1 "a" = some r) ∧
      (∀ v, twoFrames.store 1 "a" = some v →
        Environment.Get twoFrames 2 1 "a" = some (some v, true)) ∧
      (twoFrames.store 1 "a" = none → ∀ p, twoFrames.outer 1 = some p → ∀ fuel', p < fuel' →
        Environment.Get twoFrames 2 1 "a" = Environment.Get twoFrames fuel' p "a") ∧
      (twoFrames.store 1 "a" = none → twoFrames.outer 1 = none →
        Environment.Get twoFrames 2 1 "a" = some (none, false))) :=
  ⟨twoFrames_WF, by decide, by decide,
    C12_get_walks_chain twoFrames twoFrames_WF 1 (by decide) "a" 2 (by decide)⟩

/-- C13: `Set` writes only to the current frame.  The environment `c` that
`NewEnclosedEnvironment(p)` makes has `p` as its outer environment, hence as an
ancestor.  In a well-formed heap, for an environment `c`, every ancestor `a` of
`c` (its outer environment and every further one), every name `n` and value
`v`: after `c.Set(n, v)`, `Get` on `a` returns for every name `m` what it
returned before, and `a` is still an ancestor of `c`. -/
theorem C13_set_leaves_ancestors (h : Heap) (hwf : h.WF) (c a : Nat) (hanc : Ancestor h c a)
    (n : String) (v : Object) (m : String) (fuel : Nat) :
    (∀ (h0 : Heap) (p : Nat),
      Ancestor (NewEnclosedEnvironment h0 (some p)).1 (NewEnclosedEnvironment h0 (some p)).2 p) ∧
    Environment.Get (Environment.Set h c n v).1 fuel a m = Environment.Get h fuel a m ∧
    Ancestor (Environment.Set h c n v).1 c a := by
  have houter : ∀ e, (Environment.Set h c n v).1.outer e = h.outer e := by
    intro e
    simp only [Environment.Set, Heap.outer]
    rw [Heap.getElem?_update]
    by_cases hce : c = e
    · rw [if_pos hce]
      cases (h[e]? : Option Environment) <;> rfl
    · rw [if_neg hce]
  refine ⟨fun h0 p => Ancestor.outer (NewEnclosedEnvironment_outer h0 (some p)), ?_, ?_⟩
  · refine Environment.Get_congr h _ hwf c ?_ m fuel a (Ancestor.lt hwf hanc)
    intro b hb
    simp only [Environment.Set]
    rw [Heap.getElem?_update, if_neg (by omega)]
  · have hmono : ∀ x y, Ancestor h x y → Ancestor (Environment.Set h c n v).1 x y := by
      intro x y hxy
      induction hxy with
      | outer hp => exact Ancestor.outer ((houter _).trans hp)
      | step hp _ ih => exact Ancestor.step ((houter _).trans hp) ih
    exact hmono c a hanc

/-- C13 on the heap `twoFrames`: setting `a` in the enclosed environment leaves
`Get` of `a` on the outer environment as it was. -/
theorem C13_set_leaves_ancestors_witness :
    twoFrames.WF ∧ Ancestor twoFrames 1 0 ∧
    ((∀ (h0 : Heap) (p : Nat),
      Ancestor (NewEnclosedEnvironment h0 (some p)).1 (NewEnclosedEnvironment h0 (some p)).2 p) ∧
    Environment.Get (Environment.Set twoFrames 1 "a" (.Integer 7)).1 1 0 "a"
      = Environment.Get twoFrames 1 0 "a" ∧
    Ancestor (Environment.Set twoFrames 1 "a" (.Integer 7)).1 1 0) :=
  ⟨twoFrames_WF, Ancestor.outer (by decide),
    C13_set_leaves_ancestors twoFrames twoFrames_WF 1 0 (Ancestor.outer (by decide))
      "a" (.Integer 7) "a" 1⟩

/-- C14: for every Array with elements `e1..en`, `Inspect` returns `[`, then
the `Inspect` strings of `e1..en` in order joined by the separator `, `, then
`]`; the empty Array inspects as `[]` and nested Arrays are rendered
recursively. -/
theorem C14_array_inspect (es : List Object) :
    Inspect (.Array es) = "[" ++ ", ".intercalate (es.map Inspect) ++ "]" ∧
    Inspect (.Array []) = "[]" ∧
    Inspect (.Array [.Integer 1, .Array [.Integer 2, .Array []], .String "x"])
      = "[1, [2, []], \"x\"]" := by
  refine ⟨?_, rfl, rfl⟩
  show "" ++ "[" ++ strings.Join (inspectElements es) ", " ++ "]" = _
  rw [inspectElements_eq_map, strings.Join_eq_intercalate, String.empty_append]

/-- C15: `Inspect` of the values that are not composite.  An Integer `n`
inspects as its decimal rendering, with a leading `-` when negative; a Boolean
as `true` or `false`; Null as `null`; a String `s` as a double quote, `s`
unchanged, and a double quote (so its bytes are byte 34, the bytes of `s`, byte
34); an Error with message `m` as `ERROR: ` followed by `m`; a Builtin as
`builtin function`. -/
theorem C15_inspect_formats (n : Int) (k : Int) (s : String) (m : String)
    (f : BuiltinFunction) :
    Inspect (.Integer n) = (if n < 0 then "-" ++ Nat.repr n.natAbs else Nat.repr n.toNat) ∧
    Inspect (.Boolean true) = "true" ∧
    Inspect (.Boolean false) = "false" ∧
    Inspect (.Null k) = "null" ∧
    Inspect (.String s) = "\"" ++ s ++ "\"" ∧
    bytes (Inspect (.String s)) = [34] ++ bytes s ++ [34] ∧
    Inspect (.Error m) = "ERROR: " ++ m ∧
    Inspect (.Builtin f) = "builtin function" := by
  refine ⟨?_, rfl, rfl, rfl, rfl, ?_, rfl, rfl⟩
  · show fmt.Sprintf "%d" [.int n] = _
    rw [fmt.Sprintf_d]
    cases n with
    | ofNat a =>
      have h : ¬ (Int.ofNat a < 0) := by simp
      rw [if_neg h]
      rfl
    | negSucc a =>
      have h : Int.negSucc a < 0 := Int.negSucc_lt_zero a
      rw [if_pos h]
      rfl
  · show bytes ("\"" ++ s ++ "\"") = _
    rw [bytes_append, bytes_append]
    rfl

/-- C16: `puts` returns `NULL` for every argument list of length at least 1,
whatever the arguments are, after writing to the standard output one line per
argument, the `Inspect` string of that argument, in argument order; for the
empty argument list it returns the Error
`wrong number of arguments, got=0, want=1+` and writes nothing. -/
theorem C16_puts (stdout : String) (args : List Object) :
    (args ≠ [] →
      puts stdout args =
        (.returns NULL, stdout ++ String.join (args.map fun a => Inspect a ++ "\n"))) ∧
    puts stdout [] =
      (.returns (.Error "wrong number of arguments, got=0, want=1+"), stdout) := by
  refine ⟨?_, rfl⟩
  intro hne
  have hlen : ¬ (args.length < 1) := by
    cases args with
    | nil => exact absurd rfl hne
    | cons a as => simp
  rw [puts, if_neg hlen]
  simp only []
  rw [foldl_Println]

/-- C16 at the arguments `1` and the String `a`, on an empty standard output:
the two lines `1` and `"a"` are written. -/
theorem C16_puts_witness :
    [Object.Integer 1, Object.String "a"] ≠ [] ∧
    puts "" [Object.Integer 1, Object.String "a"] = (.returns NULL, "1\n\"a\"\n") :=
  ⟨by simp, ((C16_puts "" [Object.Integer 1, Object.String "a"]).1 (by simp)).trans rfl⟩

/-- C17: `HashKey` is injective on Integers and on Booleans: two Integers
holding `int64` values with the same hash key hold the same value, and two
Booleans with the same hash key have the same truth value. -/
theorem C17_hash_key_injective (m n : Int) (hm : int64 m) (hn : int64 n) (a b : Bool) :
    (Integer.HashKey m = Integer.HashKey n → m = n) ∧
    (Boolean.HashKey a = Boolean.HashKey b → a = b) := by
  constructor
  · intro h
    simp only [Integer.HashKey, HashKey.mk.injEq] at h
    exact uint64_inj m n hm hn h.2
  · intro h
    simp only [Boolean.HashKey, HashKey.mk.injEq] at h
    cases a <;> cases b <;> simp at h ⊢

/-- C17 at the Integers `-1` and `-1` and the Booleans `true` and `true`. -/
theorem C17_hash_key_injective_witness :
    int64 (-1) ∧ int64 (-1) ∧
    ((Integer.HashKey (-1) = Integer.HashKey (-1) → (-1 : Int) = -1) ∧
      (Boolean.HashKey true = Boolean.HashKey true → true = true)) :=
  ⟨by decide, by decide, C17_hash_key_injective (-1) (-1) (by decide) (by decide) true true⟩

/-- C18: `Set` then `Get` on one environment.  In a well-formed heap, for an
allocated environment `e`, a name `n` and a value `v`: `e.Set(n, v)` returns
`v`; afterwards `e.Get(n)` returns `(v, true)`; for every name `m ≠ n`,
`e.Get(m)` returns what it returned before; and every name that was found
before is still found. -/
theorem C18_set_then_get (h : Heap) (hwf : h.WF) (e : Nat) (he : e < h.length)
    (n : String) (v : Object) (fuel : Nat) (hfuel : e < fuel) :
    (Environment.Set h e n v).2 = v ∧
    Environment.Get (Environment.Set h e n v).1 fuel e n = some (some v, true) ∧
    (∀ m, m ≠ n →
      Environment.Get (Environment.Set h e n v).1 fuel e m = Environment.Get h fuel e m) ∧
    (∀ m obj, Environment.Get h fuel e m = some (some obj, true) →
      ∃ obj', Environment.Get (Environment.Set h e n v).1 fuel e m = some (some obj', true)) := by
  obtain ⟨f, rfl⟩ : ∃ f, fuel = f + 1 := ⟨fuel - 1, by omega⟩
  have henv : (h[e]? : Option Environment) = some h[e] := List.getElem?_eq_getElem he
  have henv' : ((Environment.Set h e n v).1[e]? : Option Environment) =
      some { h[e] with store := fun k => if k = n then some v else h[e].store k } := by
    simp only [Environment.Set]
    rw [Heap.getElem?_update, if_pos rfl, henv]
    rfl
  have hbelow : ∀ b, b < e →
      ((Environment.Set h e n v).1[b]? : Option Environment) = h[b]? := by
    intro b hb
    simp only [Environment.Set]
    rw [Heap.getElem?_update, if_neg (by omega)]
  have hset : Environment.Get (Environment.Set h e n v).1 (f + 1) e n = some (some v, true) :=
    Environment.Get_hit _ f e n _ v henv' (by simp)
  have hother : ∀ m, m ≠ n →
      Environment.Get (Environment.Set h e n v).1 (f + 1) e m
        = Environment.Get h (f + 1) e m := by
    intro m hmn
    cases hv : h[e].store m with
    | some w =>
      rw [Environment.Get_hit h f e m _ w henv hv,
        Environment.Get_hit _ f e m _ w henv' (by simp [hmn, hv])]
    | none =>
      cases houter : h[e].outer with
      | none =>
        rw [Environment.Get_miss_root h f e m _ henv hv houter,
          Environment.Get_miss_root _ f e m _ henv' (by simp [hmn, hv]) houter]
      | some p =>
        rw [Environment.Get_miss_outer h f e m _ p henv hv houter,
          Environment.Get_miss_outer _ f e m _ p henv' (by simp [hmn, hv]) houter]
        exact Environment.Get_congr h _ hwf e hbelow m f p (hwf e _ henv p houter)
  refine ⟨rfl, hset, hother, ?_⟩
  intro m obj hm
  by_cases hmn : m = n
  · subst hmn; exact ⟨v, hset⟩
  · exact ⟨obj, by rw [hother m hmn, hm]⟩

/-- C18 on the heap `twoFrames`, at the enclosed environment and the name `a`. -/
theorem C18_set_then_get_witness :
    twoFrames.WF ∧ 1 < twoFrames.length ∧ 1 < 2 ∧
    ((Environment.Set twoFrames 1 "a" (.Integer 7)).2 = .Integer 7 ∧
      Environment.Get (Environment.Set twoFrames 1 "a" (.Integer 7)).1 2 1 "a"
        = some (some (.Integer 7), true) ∧
      (∀ m, m ≠ "a" →
        Environment.Get (Environment.Set twoFrames 1 "a" (.Integer 7)).1 2 1 m
          = Environment.Get twoFrames 2 1 m) ∧
      (∀ m obj, Environment.Get twoFrames 2 1 m = some (some obj, true) →
        ∃ obj', Environment.Get (Environment.Set twoFrames 1 "a" (.Integer 7)).1 2 1 m
          = some (some obj', true))) :=
  ⟨twoFrames_WF, by decide, by decide,
    C18_set_then_get twoFrames twoFrames_WF 1 (by decide) "a" (.Integer 7) 2 (by decide)⟩

/-- C19: repeated `rest` walks the suffixes of an array.  For every Array `a`
of `n` elements and every `k ≤ n`, `rest` applied `k` times to `a` returns the
Array of the elements of `a` from index `k` on (the empty Array for `k = n`),
and `rest` applied `n + 1` times returns `NULL`. -/
theorem C19_rest_iterated (a : List Object) (k : Nat) (hk : k ≤ a.length) :
    restTimes k (.Array a) = .returns (.Array (a.drop k)) ∧
    restTimes a.length (.Array a) = .returns (.Array []) ∧
    restTimes (a.length + 1) (.Array a) = .returns NULL := by
  have hn : restTimes a.length (.Array a) = .returns (.Array []) := by
    rw [restTimes_drop a a.length (Nat.le_refl _), List.drop_length]
  refine ⟨restTimes_drop a k hk, hn, ?_⟩
  rw [restTimes, hn]
  rfl

/-- C19 at the array `[1, 2, 3]` and `k = 2`. -/
theorem C19_rest_iterated_witness :
    2 ≤ [Object.Integer 1, Object.Integer 2, Object.Integer 3].length ∧
    (restTimes 2 (.Array [Object.Integer 1, Object.Integer 2, Object.Integer 3])
        = .returns (.Array ([Object.Integer 1, Object.Integer 2, Object.Integer 3].drop 2)) ∧
      restTimes [Object.Integer 1, Object.Integer 2, Object.Integer 3].length
          (.Array [Object.Integer 1, Object.Integer 2, Object.Integer 3])
        = .returns (.Array []) ∧
      restTimes ([Object.Integer 1, Object.Integer 2, Object.Integer 3].length + 1)
          (.Array [Object.Integer 1, Object.Integer 2, Object.Integer 3])
        = .returns NULL) :=
  ⟨by decide,
    C19_rest_iterated [Object.Integer 1, Object.Integer 2, Object.Integer 3] 2 (by decide)⟩

/-- C20: `LookupIdent` classifies an identifier against the table `keywords`:
it returns `FUNCTION`, `LET`, `TRUE`, `FALSE`, `IF`, `ELSE`, `RETURN` when the
string is exactly `fn`, `let`, `true`, `false`, `if`, `else`, `return`, and
`IDENT` for every other string; the match is on the whole string and case
sensitive. -/
theorem C20_lookup_ident (s : String) :
    token.LookupIdent s =
      (if s = "fn" then token.FUNCTION
       else if s = "let" then token.LET
       else if s = "true" then token.TRUE
       else if s = "false" then token.FALSE
       else if s = "if" then token.IF
       else if s = "else" then token.ELSE
       else if s = "return" then token.RETURN
       else token.IDENT) ∧
    token.LookupIdent "Fn" = token.IDENT ∧
    token.LookupIdent "LET" = token.IDENT ∧
    token.LookupIdent "lets" = token.IDENT ∧
    token.LookupIdent "" = token.IDENT := by
  refine ⟨?_, by decide, by decide, by decide, by decide⟩
  simp only [token.LookupIdent, token.keywords, List.lookup]
  by_cases h1 : s = "fn"
  · subst h1; rfl
  by_cases h2 : s = "let"
  · subst h2; rfl
  by_cases h3 : s = "true"
  · subst h3; rfl
  by_cases h4 : s = "false"
  · subst h4; rfl
  by_cases h5 : s = "if"
  · subst h5; rfl
  by_cases h6 : s = "else"
  · subst h6; rfl
  by_cases h7 : s = "return"
  · subst h7; rfl
  have e1 : (s == "fn") = false := by simpa using h1
  have e2 : (s == "let") = false := by simpa using h2
  have e3 : (s == "true") = false := by simpa using h3
  have e4 : (s == "false") = false := by simpa using h4
  have e5 : (s == "if") = false := by simpa using h5
  have e6 : (s == "else") = false := by simpa using h6
  have e7 : (s == "return") = false := by simpa using h7
  simp only [e1, e2, e3, e4, e5, e6, e7, h1, h2, h3, h4, h5, h6, h7, if_false]
